import Mathlib

/-!
# Linux_Shell_cpp: the execution core of `src/main.cpp`

A shallow embedding of `split`, `find_executable`, `exe_single_command` and
`execute_pipeline`.  The operating system is an explicit environment of oracles
(`Env`); every system call the process makes is appended to a trace of `Event`s,
and the job map `Jobs` is carried in the state.
-/

namespace Shell

/-! ## The environment -/

/-- The outside world as the shell sees it.  Each oracle answers one kind of
library or system call; the calls that can be made several times are indexed by
how many calls of that kind were made before. -/
structure Env where
  /-- Value of `std::getenv("PATH")`. -/
  PATH : String
  /-- Answer of `std::filesystem::exists`. -/
  file_exists : String → Bool
  /-- Answer of `std::filesystem::is_regular_file`. -/
  is_regular_file : String → Bool
  /-- Outcome of the n-th `pipe(pipe_fd)`: `none` for `-1`, else `(pipe_fd[0], pipe_fd[1])`. -/
  pipe_result : Nat → Option (Int × Int)
  /-- Return value of the n-th `fork()`: negative on failure, `0` in the child,
  the child pid in the parent. -/
  fork_result : Nat → Int
  /-- Return value of the n-th `kill(pid, 0)`. -/
  kill_result : Nat → Int → Int
  /-- Return value of `open(file, O_RDONLY)`. -/
  open_rdonly : String → Int
  /-- Return value of `open(file, O_WRONLY | O_CREAT | O_TRUNC, 0644)`. -/
  open_wronly : String → Int
  /-- Whether `execv(path, argv)` replaces the process image (it then never returns). -/
  execv_ok : String → Bool
  /-- Indeterminate contents of the local array `pipe_fd` before the first `pipe` call. -/
  uninit_pipe_fd : Int × Int

/-- One observable action of the process, in program order. -/
inductive Event where
  | pipe_ok (read_end write_end : Int)
  | pipe_failed
  | not_found (name : String)
  | spawn_call (command : List String) (path : String) (input_fd output_fd : Int)
  | fork_failed
  | fork (pid : Int) (command : List String) (input_file output_file : String)
  | waitpid (pid : Int)
  | background_message (pid : Int)
  | kill (pid : Int) (result : Int)
  | close (fd : Int)
  | open_input (file : String) (fd : Int)
  | open_output (file : String) (fd : Int)
  | dup2 (oldfd newfd : Int)
  | execv (path : String) (argv : List String)
  | execv_failed
  | exit_failure
  deriving DecidableEq, Repr

/-- Whether the process is still executing shell code. -/
inductive Status where
  /-- Control is still inside the shell. -/
  | running
  /-- The process image was replaced by `execv`, or the process called `exit`. -/
  | gone
  /-- An out-of-range vector access was executed (`back()` or `[0]` on an empty vector). -/
  | undefined
  deriving DecidableEq, Repr

/-- The mutable state threaded through the shell functions. -/
structure State where
  /-- The map `std::unordered_map<pid_t, std::string> Jobs`. -/
  Jobs : Int → Option String
  trace : List Event
  /-- Number of `pipe` calls made so far. -/
  pipes : Nat
  /-- Number of `fork` calls made so far. -/
  forks : Nat
  /-- Number of `kill` calls made so far. -/
  kills : Nat
  status : Status

/-- Assignment `Jobs[pid] = value`. -/
def jobs_assign (Jobs : Int → Option String) (pid : Int) (value : String) : Int → Option String :=
  fun q => if q = pid then some value else Jobs q

/-- Append one event to the trace. -/
def emit (s : State) (e : Event) : State :=
  { s with trace := s.trace ++ [e] }

/-- The state in which a shell session starts a pipeline. -/
def initial_state (Jobs : Int → Option String) : State :=
  { Jobs := Jobs, trace := [], pipes := 0, forks := 0, kills := 0, status := Status.running }

/-! ## `split` (lines 37-45) -/

/-- The `while (std::getline(tokenStream, token, delimiter))` loop over the
remaining characters, `token` being the characters extracted so far by the
current `getline`.  At end of input a `getline` that extracted nothing fails
and pushes nothing. -/
def split_chars (delimiter : Char) : List Char → List Char → List String
  | [], token => if token = [] then [] else [String.mk token]
  | c :: cs, token =>
    if c = delimiter then String.mk token :: split_chars delimiter cs []
    else split_chars delimiter cs (token ++ [c])

/-- Source function `split`. -/
def split (str : String) (delimiter : Char) : List String :=
  split_chars delimiter str.toList []

/-! ## `find_executable` (lines 52-63) -/

/-- The library operation `std::filesystem::path(dir) / exe_name` followed by
`.string()`, for POSIX paths: an absolute right operand replaces the left one,
otherwise a separator is inserted only when the left operand has a filename. -/
def path_append (dir exe_name : String) : String :=
  if exe_name.toList.head? = some '/' then exe_name
  else if dir.toList = [] ∨ dir.toList.getLast? = some '/' then dir ++ exe_name
  else dir ++ "/" ++ exe_name

/-- The `for (const auto &dir : directories)` loop of `find_executable`. -/
def find_in_directories (env : Env) (exe_name : String) : List String → String
  | [] => ""
  | dir :: directories =>
    let exe_path := path_append dir exe_name
    if env.file_exists exe_path && env.is_regular_file exe_path then exe_path
    else find_in_directories env exe_name directories

/-- Source function `find_executable`. -/
def find_executable (env : Env) (exe_name : String) : String :=
  find_in_directories env exe_name (split env.PATH ':')

/-! ## `exe_single_command` (lines 115-185) -/

/-- The call `command.erase(command.begin() + i, command.begin() + i + 2)`. -/
def erase_two (command : List String) (i : Nat) : List String :=
  command.take i ++ command.drop (i + 2)

/-- The redirection loop of lines 127-137, from index `i` on.  After an erase
the source does `--i` and the loop header `++i`, so `i` is unchanged (for
`i = 0` the unsigned decrement wraps and the increment wraps back). -/
@[semireducible] def redirection_scan (command : List String) (i : Nat)
    (input_file output_file : String) : List String × String × String :=
  if h : i < command.length then
    if command[i] = "<" ∧ i + 1 < command.length then
      redirection_scan (erase_two command i) i (command.getD (i + 1) "") output_file
    else if command[i] = ">" ∧ i + 1 < command.length then
      redirection_scan (erase_two command i) i input_file (command.getD (i + 1) "")
    else redirection_scan command (i + 1) input_file output_file
  else (command, input_file, output_file)
termination_by command.length - i
decreasing_by
  · simp only [erase_two, List.length_append, List.length_take, List.length_drop]; omega
  · simp only [erase_two, List.length_append, List.length_take, List.length_drop]; omega
  · omega

/-- Lines 121-124: the background flag and the command after `pop_back`, for a
non-empty command whose last element is `last`. -/
def strip_background (command : List String) (last : String) : Bool × List String :=
  if last = "&" then (true, command.dropLast) else (false, command)

/-- Source function `handle_input_redirection` (the `perror` output is not traced). -/
def handle_input_redirection (env : Env) (s : State) (input_file : String) : Int × State :=
  let fd := env.open_rdonly input_file
  (fd, emit s (Event.open_input input_file fd))

/-- Source function `handle_output_redirection` (the `perror` output is not traced). -/
def handle_output_redirection (env : Env) (s : State) (output_file : String) : Int × State :=
  let fd := env.open_wronly output_file
  (fd, emit s (Event.open_output output_file fd))

/-- An `if (fd != -1) { dup2(fd, target); close(fd); }` block of the child branch. -/
def redirect_onto (s : State) (fd target : Int) : State :=
  if fd ≠ -1 then emit (emit s (Event.dup2 fd target)) (Event.close fd) else s

/-- The child branch (lines 145-169), taken when `fork` returned `0`.  It never
returns to the caller: `execv` replaces the image or the process exits. -/
def child_branch (env : Env) (s : State) (command : List String) (path : String)
    (input_file output_file : String) (input_fd output_fd : Int) : State :=
  let r1 := if input_file ≠ "" then handle_input_redirection env s input_file else (input_fd, s)
  let r2 := if output_file ≠ "" then handle_output_redirection env r1.2 output_file
            else (output_fd, r1.2)
  let s3 := redirect_onto r2.2 r1.1 0
  let s4 := redirect_onto s3 r2.1 1
  let s5 := emit s4 (Event.execv path command)
  if env.execv_ok path then { s5 with status := Status.gone }
  else { emit (emit s5 Event.execv_failed) Event.exit_failure with status := Status.gone }

/-- The parent branch (lines 171-184), taken when `fork` returned a positive pid. -/
def parent_branch (env : Env) (s : State) (command : List String) (background : Bool)
    (pid : Int) : State :=
  match command.head? with
  | none => { s with status := Status.undefined }
  | some argv0 =>
    let s1 := { s with Jobs := jobs_assign s.Jobs pid (argv0 ++ ": this process is no longer active") }
    let s2 := if background then emit s1 (Event.background_message pid)
              else emit s1 (Event.waitpid pid)
    let result := env.kill_result s2.kills pid
    let s3 := { emit s2 (Event.kill pid result) with kills := s2.kills + 1 }
    if result = 0 then
      { s3 with Jobs := jobs_assign s3.Jobs pid (argv0 ++ ": this process is active") }
    else s3

/-- The local variables of `exe_single_command` when it reaches `fork`. -/
structure Stage where
  background : Bool
  /-- The vector `command` after `pop_back` and the erasures of the scan. -/
  command : List String
  input_file : String
  output_file : String
  deriving DecidableEq, Repr

/-- Lines 117-137 of `exe_single_command`: marker handling, then the redirection
scan.  The result is `none` when `command.back()` is evaluated on an empty vector. -/
def build_stage (command : List String) : Option Stage :=
  match command.getLast? with
  | none => none
  | some last =>
    let stripped := strip_background command last
    let scanned := redirection_scan stripped.2 0 "" ""
    some { background := stripped.1, command := scanned.1,
           input_file := scanned.2.1, output_file := scanned.2.2 }

/-- The program name of a stage: the value of `command[0]` that the parent
branch reads after the marker and the redirection tokens were removed; `none`
when no token remains. -/
def program_name (command : List String) : Option String :=
  match build_stage command with
  | none => none
  | some stage => stage.command.head?

/-- Source function `exe_single_command`.  The event `spawn_call` records the
call with its arguments; the event `fork` records a successful `fork` together
with the values of `command`, `input_file` and `output_file` that the child
starts from. -/
def exe_single_command (env : Env) (s : State) (command : List String) (path : String)
    (input_fd output_fd : Int) : State :=
  let s0 := emit s (Event.spawn_call command path input_fd output_fd)
  match build_stage command with
  | none => { s0 with status := Status.undefined }
  | some stage =>
    let pid := env.fork_result s0.forks
    let s1 := { s0 with forks := s0.forks + 1 }
    if pid < 0 then emit s1 Event.fork_failed
    else
      let s2 := emit s1 (Event.fork pid stage.command stage.input_file stage.output_file)
      if pid = 0 then
        child_branch env s2 stage.command path stage.input_file stage.output_file
          input_fd output_fd
      else parent_branch env s2 stage.command stage.background pid

/-! ## `execute_pipeline` (lines 191-223) -/

/-- Lines 197-202: the pipe is created for every stage but the last; an error
result is the state at the early `return`. -/
def create_pipe (env : Env) (s : State) (i num_commands : Nat) (pipe_fd : Int × Int) :
    Except State ((Int × Int) × State) :=
  if (i : Int) ≠ (num_commands : Int) - 1 then
    match env.pipe_result s.pipes with
    | none => Except.error (emit { s with pipes := s.pipes + 1 } Event.pipe_failed)
    | some fds =>
      Except.ok (fds, emit { s with pipes := s.pipes + 1 } (Event.pipe_ok fds.1 fds.2))
  else Except.ok (pipe_fd, s)

/-- An `if (fd != -1) { close(fd); }` block of the parent. -/
def close_if_valid (s : State) (fd : Int) : State :=
  if fd ≠ -1 then emit s (Event.close fd) else s

/-- The `for` loop of `execute_pipeline` from index `i` on; the first argument
is `commands[i..]`.  Each early `return` of the source ends the recursion.  The
loop also ends when `exe_single_command` did not come back to its caller in a
running shell: in the child process (status `gone`) or after an out-of-range
access (status `undefined`). -/
def pipeline_loop (env : Env) (num_commands : Nat) :
    List (List String) → Nat → Int × Int → Int → State → State
  | [], _, _, _, s => s
  | command :: rest, i, pipe_fd, input_fd, s =>
    match create_pipe env s i num_commands pipe_fd with
    | Except.error s1 => s1
    | Except.ok (pipe_fd1, s1) =>
      match command.head? with
      | none => { s1 with status := Status.undefined }
      | some name =>
        let exe_path := find_executable env name
        if exe_path = "" then emit s1 (Event.not_found name)
        else
          let output_fd : Int := if (i : Int) = (num_commands : Int) - 1 then -1 else pipe_fd1.2
          let s2 := exe_single_command env s1 command exe_path input_fd output_fd
          if s2.status ≠ Status.running then s2
          else
            let s3 := close_if_valid s2 input_fd
            let s4 := close_if_valid s3 output_fd
            pipeline_loop env num_commands rest (i + 1) pipe_fd1 pipe_fd1.1 s4

/-- Source function `execute_pipeline`, started with the job map `Jobs`; the
narrowing of `commands.size()` to `int` is taken to be exact. -/
def execute_pipeline (env : Env) (commands : List (List String)) (Jobs : Int → Option String) :
    State :=
  pipeline_loop env commands.length commands 0 env.uninit_pipe_fd (-1) (initial_state Jobs)

/-! ## Example worlds -/

/-- A world with `/bin/ls`, `/bin/cat`, `/usr/bin/wc` and `/bin/sleep`, where pipes
get descriptors `(3 + 2n, 4 + 2n)`, forks give pids `100 + n`, and every probe succeeds. -/
def demo_env : Env where
  PATH := "/usr/local/bin:/usr/bin:/bin"
  file_exists := fun p => p = "/bin/ls" ∨ p = "/bin/cat" ∨ p = "/usr/bin/wc" ∨ p = "/bin/sleep"
  is_regular_file := fun p => p = "/bin/ls" ∨ p = "/bin/cat" ∨ p = "/usr/bin/wc" ∨ p = "/bin/sleep"
  pipe_result := fun n => some (3 + 2 * (n : Int), 4 + 2 * (n : Int))
  fork_result := fun n => 100 + (n : Int)
  kill_result := fun _ _ => 0
  open_rdonly := fun f => if f = "in.txt" then 7 else -1
  open_wronly := fun _ => 8
  execv_ok := fun _ => true
  uninit_pipe_fd := (0, 0)

/-- The world of `demo_env` in which only the first `pipe` call succeeds. -/
def one_pipe_env : Env :=
  { demo_env with pipe_result := fun n => if n = 0 then some (3, 4) else none }

/-- The world of `demo_env` in which a regular file named `&` is on `PATH`. -/
def ampersand_env : Env :=
  { demo_env with file_exists := fun p => p = "/bin/&", is_regular_file := fun p => p = "/bin/&" }

/-! ## Specification-side definitions for the redirection scan -/

/-- Whether a token is one of the two redirection operators. -/
def is_redirection_operator (t : String) : Bool :=
  t = "<" || t = ">"

/-- Spec-side reading of "every (operator, filename) pair removed": keep the
tokens that are neither an operator nor the token right after an operator.
The flag tells whether the previous token was an operator. -/
def without_redirections (after_operator : Bool) : List String → List String
  | [] => []
  | t :: rest =>
    if is_redirection_operator t || after_operator then
      without_redirections (is_redirection_operator t) rest
    else t :: without_redirections false rest

/-- Spec-side reading of "the filename following the last `op`": the token right
after the last occurrence of `op` that has a token after it. -/
def last_after (op : String) : List String → Option String
  | [] => none
  | [_] => none
  | t :: f :: rest =>
    match last_after op (f :: rest) with
    | some x => some x
    | none => if t = op then some f else none

/-- Every redirection operator is immediately followed by a token that is not
itself a redirection operator. -/
def operators_have_filenames (tokens : List String) : Prop :=
  ∀ i, i < tokens.length → is_redirection_operator (tokens.getD i "") = true →
    i + 1 < tokens.length ∧ is_redirection_operator (tokens.getD (i + 1) "") = false

/-! ## Projections of a trace -/

/-- The descriptors duplicated onto standard input (`dup2(fd, STDIN_FILENO)`), in order. -/
def stdin_sources (trace : List Event) : List Int :=
  trace.flatMap fun e =>
    match e with
    | Event.dup2 oldfd newfd => if newfd = 0 then [oldfd] else []
    | _ => []

/-- The calls of `exe_single_command`, in order. -/
def spawn_calls (trace : List Event) : List Event :=
  trace.filter fun e =>
    match e with
    | Event.spawn_call _ _ _ _ => true
    | _ => false

/-- The pipe creations and the calls of `exe_single_command`, in order. -/
def wiring (trace : List Event) : List Event :=
  trace.filter fun e =>
    match e with
    | Event.pipe_ok _ _ => true
    | Event.spawn_call _ _ _ _ => true
    | _ => false

/-- The successful forks, in order. -/
def forks_of (trace : List Event) : List Event :=
  trace.filter fun e =>
    match e with
    | Event.fork _ _ _ _ => true
    | _ => false

/-- The pids on which a blocking `waitpid` was performed, in order. -/
def waited_pids (trace : List Event) : List Int :=
  trace.flatMap fun e =>
    match e with
    | Event.waitpid pid => [pid]
    | _ => []

/-- The command vectors of the calls of `exe_single_command`, in order. -/
def called_commands (trace : List Event) : List (List String) :=
  trace.flatMap fun e =>
    match e with
    | Event.spawn_call command _ _ _ => [command]
    | _ => []

/-- The successful forks and what follows each of them (a blocking `waitpid`,
or the background message), in order. -/
def forks_and_waits (trace : List Event) : List Event :=
  trace.filter fun e =>
    match e with
    | Event.fork _ _ _ _ => true
    | Event.waitpid _ => true
    | Event.background_message _ => true
    | _ => false

/-! ## The events of a run without failures -/

/-- The input descriptor carried into stage `i` when `r j` is the read end of
the pipe created in iteration `j`. -/
def carried_input (r : Nat → Int) (i : Nat) : Int :=
  if i = 0 then -1 else r (i - 1)

/-- The output descriptor of stage `i` of `n` when `w i` is the write end of
the pipe created in iteration `i`. -/
def stage_output (w : Nat → Int) (n i : Nat) : Int :=
  if i + 1 = n then -1 else w i

/-- The events of iteration `p.1` of the loop of `execute_pipeline` for the
command `p.2`, when nothing fails. -/
def stage_events (env : Env) (r w : Nat → Int) (n : Nat) (p : Nat × List String) : List Event :=
  match build_stage p.2 with
  | none => []
  | some stage =>
    (if p.1 + 1 = n then [] else [Event.pipe_ok (r p.1) (w p.1)]) ++
    [Event.spawn_call p.2 (find_executable env (p.2.headD "")) (carried_input r p.1)
        (stage_output w n p.1),
      Event.fork (env.fork_result p.1) stage.command stage.input_file stage.output_file,
      if stage.background then Event.background_message (env.fork_result p.1)
      else Event.waitpid (env.fork_result p.1),
      Event.kill (env.fork_result p.1) (env.kill_result p.1 (env.fork_result p.1))] ++
    (if carried_input r p.1 ≠ -1 then [Event.close (carried_input r p.1)] else []) ++
    (if stage_output w n p.1 ≠ -1 then [Event.close (stage_output w n p.1)] else [])

/-- Nothing fails in iteration `p.1` for the command `p.2`: the stage has a
program name, the name resolves, the pipe (if one is due) is created with ends
`(r p.1, w p.1)`, and `fork` returns a child pid. -/
def runs_clean (env : Env) (r w : Nat → Int) (n : Nat) (p : Nat × List String) : Prop :=
  (∃ stage program, build_stage p.2 = some stage ∧ stage.command.head? = some program) ∧
  find_executable env (p.2.headD "") ≠ "" ∧
  (p.1 + 1 ≠ n → env.pipe_result p.1 = some (r p.1, w p.1)) ∧
  0 < env.fork_result p.1

/-! ## Theorems: `find_executable` -/

theorem find_in_directories_eq_find (env : Env) (exe_name : String) (dirs : List String) :
    find_in_directories env exe_name dirs =
      match dirs.find? (fun d => env.file_exists (path_append d exe_name) &&
          env.is_regular_file (path_append d exe_name)) with
      | some d => path_append d exe_name
      | none => "" := by
  induction dirs with
  | nil => rfl
  | cons d ds ih =>
    by_cases h : (env.file_exists (path_append d exe_name) &&
        env.is_regular_file (path_append d exe_name)) = true
    · simp [find_in_directories, List.find?, h]
    · simp only [Bool.not_eq_true] at h
      simp [find_in_directories, List.find?, h, ih]

theorem getElem_at_length (done rest : List String) (x : String)
    (h : done.length < (done ++ x :: rest).length) : (done ++ x :: rest)[done.length] = x := by
  rw [List.getElem_append_right (Nat.le_refl _)]
  simp

theorem getElem_after_length (done rest : List String) (x y : String)
    (h : done.length + 1 < (done ++ x :: y :: rest).length) :
    (done ++ x :: y :: rest)[done.length + 1] = y := by
  rw [List.getElem_append_right (Nat.le_succ _)]
  simp

theorem redirection_scan_finished (done : List String) (input_file output_file : String) :
    redirection_scan done done.length input_file output_file =
      (done, input_file, output_file) := by
  rw [redirection_scan]
  simp

theorem redirection_scan_input (done rest : List String) (f input_file output_file : String) :
    redirection_scan (done ++ "<" :: f :: rest) done.length input_file output_file =
      redirection_scan (done ++ rest) done.length f output_file := by
  rw [redirection_scan]
  simp [erase_two, List.getD_append_right, getElem_at_length, getElem_after_length]

theorem redirection_scan_output (done rest : List String) (f input_file output_file : String) :
    redirection_scan (done ++ ">" :: f :: rest) done.length input_file output_file =
      redirection_scan (done ++ rest) done.length input_file f := by
  rw [redirection_scan]
  simp [erase_two, List.getD_append_right, getElem_at_length, getElem_after_length]

theorem redirection_scan_skip (done rest : List String) (t input_file output_file : String)
    (h : is_redirection_operator t = false ∨ rest = []) :
    redirection_scan (done ++ t :: rest) done.length input_file output_file =
      redirection_scan ((done ++ [t]) ++ rest) (done ++ [t]).length input_file output_file := by
  rw [redirection_scan]
  rcases h with h | h
  · simp only [is_redirection_operator, Bool.or_eq_false_iff, decide_eq_false_iff_not] at h
    simp [h.1, h.2, getElem_at_length]
  · subst h
    simp

/-- Under the well-formedness hypothesis the loop, started at the boundary
between the scanned tokens `done` and the remaining tokens `rest`, keeps `done`,
removes the pairs of `rest` and records the last filename of each operator. -/
theorem last_after_cons_ne (op t : String) (rest : List String) (h : t ≠ op) :
    last_after op (t :: rest) = last_after op rest := by
  cases rest with
  | nil => simp [last_after]
  | cons g r =>
    rw [last_after]
    cases hl : last_after op (g :: r) <;> simp [h]

theorem last_after_cons_eq (op f : String) (rest : List String) (d : String) (h : f ≠ op) :
    (last_after op (op :: f :: rest)).getD d = (last_after op rest).getD f := by
  rw [last_after, last_after_cons_ne op f rest h]
  cases hl : last_after op rest <;> simp

theorem operators_have_filenames_tail (t : String) (rest : List String)
    (h : operators_have_filenames (t :: rest)) : operators_have_filenames rest := by
  intro i hi hop
  have := h (i + 1) (by simpa using hi) (by simpa using hop)
  simpa using this

theorem redirection_scan_from (n : Nat) :
    ∀ (rest done : List String) (input_file output_file : String),
      rest.length ≤ n → operators_have_filenames rest →
      redirection_scan (done ++ rest) done.length input_file output_file =
        (done ++ without_redirections false rest,
          (last_after "<" rest).getD input_file,
          (last_after ">" rest).getD output_file) := by
  induction n with
  | zero =>
    intro rest done input_file output_file hlen _
    have hnil : rest = [] := List.length_eq_zero.mp (Nat.le_zero.mp hlen)
    subst hnil
    simp [redirection_scan_finished, without_redirections, last_after]
  | succ n ih =>
    intro rest done input_file output_file hlen hwf
    match rest, hlen, hwf with
    | [], _, _ =>
      simp [redirection_scan_finished, without_redirections, last_after]
    | [t], _, hwf =>
      have ht : is_redirection_operator t = false := by
        by_contra hc
        have := hwf 0 (by simp) (by simpa using hc)
        simp at this
      rw [redirection_scan_skip done [] t _ _ (Or.inr rfl)]
      have hfin := redirection_scan_finished (done ++ [t]) input_file output_file
      simp only [List.append_nil]
      rw [hfin]
      simp [without_redirections, last_after, ht]
    | t :: f :: rest2, hlen, hwf =>
      have hwf1 : operators_have_filenames (f :: rest2) := operators_have_filenames_tail t _ hwf
      have hwf2 : operators_have_filenames rest2 := operators_have_filenames_tail f _ hwf1
      have hlen1 : (f :: rest2).length ≤ n := by simp at hlen ⊢; omega
      have hlen2 : rest2.length ≤ n := by simp at hlen ⊢; omega
      by_cases hop : is_redirection_operator t = true
      · have hf : is_redirection_operator f = false := by
          have := hwf 0 (by simp) (by simpa using hop)
          simpa using this.2
        have hf2 : f ≠ "<" ∧ f ≠ ">" := by
          simpa [is_redirection_operator] using hf
        have ht : t = "<" ∨ t = ">" := by
          simpa [is_redirection_operator] using hop
        rcases ht with ht | ht
        · subst ht
          rw [redirection_scan_input, ih rest2 done f output_file hlen2 hwf2]
          rw [last_after_cons_eq "<" f rest2 input_file hf2.1]
          rw [last_after_cons_ne ">" "<" _ (by decide), last_after_cons_ne ">" f _ hf2.2]
          simp [without_redirections, is_redirection_operator, hf2.1, hf2.2]
        · subst ht
          rw [redirection_scan_output, ih rest2 done input_file f hlen2 hwf2]
          rw [last_after_cons_eq ">" f rest2 output_file hf2.2]
          rw [last_after_cons_ne "<" ">" _ (by decide), last_after_cons_ne "<" f _ hf2.1]
          simp [without_redirections, is_redirection_operator, hf2.1, hf2.2]
      · simp only [Bool.not_eq_true] at hop
        have ht2 : t ≠ "<" ∧ t ≠ ">" := by
          simpa [is_redirection_operator] using hop
        rw [redirection_scan_skip done _ t _ _ (Or.inl hop)]
        rw [ih (f :: rest2) (done ++ [t]) input_file output_file hlen1 hwf1]
        rw [last_after_cons_ne "<" t _ ht2.1, last_after_cons_ne ">" t _ ht2.2]
        simp [without_redirections, hop]

/-- C2: when every `<` or `>` token is immediately followed by a token that is
not `<` or `>`, the redirection scan of `exe_single_command` leaves exactly the
tokens that belong to no (operator, filename) pair, in their original order;
`input_file` is the token following the last `<` and `output_file` the token
following the last `>`, each left empty (unset) when the operator does not occur. -/
theorem redirection_scan_removes_pairs (command : List String)
    (hwf : operators_have_filenames command) :
    redirection_scan command 0 "" "" =
      (without_redirections false command,
        (last_after "<" command).getD "",
        (last_after ">" command).getD "") := by
  have h := redirection_scan_from command.length command [] "" "" (Nat.le_refl _) hwf
  simpa using h

theorem redirection_scan_removes_pairs_witness :
    redirection_scan ["sort", "<", "a", "-r", ">", "b", "<", "c", "-u"] 0 "" "" =
      (["sort", "-r", "-u"], "c", "b") :=
  redirection_scan_removes_pairs ["sort", "<", "a", "-r", ">", "b", "<", "c", "-u"]
    (by intro i hi; simp at hi; interval_cases i <;> decide)

/-! ## Theorems: the child and parent branches of `exe_single_command` -/

theorem stdin_sources_append (a b : List Event) :
    stdin_sources (a ++ b) = stdin_sources a ++ stdin_sources b := by
  simp [stdin_sources]

/-- C5: in the child (`fork` returned `0`) of a stage with a non-empty
`input_file`, the descriptors duplicated onto standard input are: the one
returned by opening `input_file` read-only when that open succeeds, and none
otherwise.  The pipe read end passed as `input_fd` is never duplicated there
(it is an open descriptor, so `open` cannot return its number). -/
theorem child_input_file_overrides_pipe (env : Env) (s : State) (command : List String)
    (path : String) (input_fd output_fd : Int) (stage : Stage)
    (hstage : build_stage command = some stage)
    (hchild : env.fork_result s.forks = 0)
    (hfile : stage.input_file ≠ "") :
    stdin_sources (exe_single_command env s command path input_fd output_fd).trace =
      stdin_sources s.trace ++
        (if env.open_rdonly stage.input_file ≠ -1 then [env.open_rdonly stage.input_file]
         else []) ∧
    (env.open_rdonly stage.input_file ≠ input_fd →
      input_fd ∉ (if env.open_rdonly stage.input_file ≠ -1
        then [env.open_rdonly stage.input_file] else [])) := by
  constructor
  · simp only [exe_single_command, hstage, emit, hchild, child_branch, hfile, ne_eq,
      not_false_eq_true, if_true, handle_input_redirection, handle_output_redirection,
      redirect_onto]
    by_cases ho : stage.output_file = "" <;> by_cases h1 : env.open_rdonly stage.input_file = -1 <;>
      by_cases h2 : output_fd = -1 <;> by_cases h3 : env.open_wronly stage.output_file = -1 <;>
      by_cases h4 : env.execv_ok path = true <;>
      simp [ho, h1, h2, h3, h4, stdin_sources]
  · intro hne
    by_cases h1 : env.open_rdonly stage.input_file = -1
    · simp [h1]
    · simp [h1, Ne.symm hne]

theorem child_input_file_overrides_pipe_witness :
    stdin_sources (exe_single_command { demo_env with fork_result := fun _ => 0 }
      (initial_state (fun _ => none)) ["cat", "<", "in.txt"] "/bin/cat" 3 (-1)).trace = [7] ∧
    (3 : Int) ∉ [(7 : Int)] :=
  have h := child_input_file_overrides_pipe { demo_env with fork_result := fun _ => 0 }
    (initial_state (fun _ => none)) ["cat", "<", "in.txt"] "/bin/cat" 3 (-1)
    { background := false, command := ["cat"], input_file := "in.txt", output_file := "" }
    (by decide) (by decide) (by decide)
  ⟨h.1, h.2 (by decide)⟩

/-- C6: when `fork` succeeds with child pid `p` and the stage has a program name
(a first token after the `&` and redirection tokens are stripped),
`exe_single_command` returns with `Jobs[p]` set to the program name followed by
`: this process is active` if the probe `kill(p, 0)` returned `0`, and by
`: this process is no longer active` otherwise; the entry of every other pid is
unchanged, so no entry is removed. -/
theorem exe_single_command_records_job (env : Env) (s : State) (command : List String)
    (path : String) (input_fd output_fd : Int) (stage : Stage) (program : String)
    (hstage : build_stage command = some stage)
    (hprogram : stage.command.head? = some program)
    (hfork : 0 < env.fork_result s.forks) :
    (exe_single_command env s command path input_fd output_fd).status = s.status ∧
    (exe_single_command env s command path input_fd output_fd).Jobs (env.fork_result s.forks) =
      some (program ++
        (if env.kill_result s.kills (env.fork_result s.forks) = 0
          then ": this process is active" else ": this process is no longer active")) ∧
    ∀ q, q ≠ env.fork_result s.forks →
      (exe_single_command env s command path input_fd output_fd).Jobs q = s.Jobs q := by
  have h1 : ¬ env.fork_result s.forks < 0 := by omega
  have h2 : ¬ env.fork_result s.forks = 0 := by omega
  simp only [exe_single_command, hstage, emit, h1, h2, if_false, parent_branch, hprogram]
  by_cases hb : stage.background = true <;>
    by_cases hk : env.kill_result s.kills (env.fork_result s.forks) = 0 <;>
    simp [hb, hk, jobs_assign] <;> intro q hq <;> simp [hq]

theorem exe_single_command_records_job_witness :
    (exe_single_command demo_env (initial_state (fun _ => none)) ["sleep", "5", "&"]
      "/bin/sleep" (-1) (-1)).Jobs 100 = some "sleep: this process is active" :=
  (exe_single_command_records_job demo_env (initial_state (fun _ => none)) ["sleep", "5", "&"]
    "/bin/sleep" (-1) (-1)
    { background := true, command := ["sleep", "5"], input_file := "", output_file := "" }
    "sleep" (by decide) (by decide) (by decide)).2.1

/-! ## Theorems: runs of `execute_pipeline` without failures -/

@[simp] theorem emit_trace (s : State) (e : Event) : (emit s e).trace = s.trace ++ [e] := rfl
@[simp] theorem emit_pipes (s : State) (e : Event) : (emit s e).pipes = s.pipes := rfl
@[simp] theorem emit_forks (s : State) (e : Event) : (emit s e).forks = s.forks := rfl
@[simp] theorem emit_kills (s : State) (e : Event) : (emit s e).kills = s.kills := rfl
@[simp] theorem emit_status (s : State) (e : Event) : (emit s e).status = s.status := rfl
@[simp] theorem emit_Jobs (s : State) (e : Event) : (emit s e).Jobs = s.Jobs := rfl

theorem close_if_valid_trace (s : State) (fd : Int) :
    (close_if_valid s fd).trace = s.trace ++ (if fd ≠ -1 then [Event.close fd] else []) := by
  unfold close_if_valid
  split <;> simp

@[simp] theorem close_if_valid_pipes (s : State) (fd : Int) :
    (close_if_valid s fd).pipes = s.pipes := by
  unfold close_if_valid
  split <;> simp

@[simp] theorem close_if_valid_forks (s : State) (fd : Int) :
    (close_if_valid s fd).forks = s.forks := by
  unfold close_if_valid
  split <;> simp

@[simp] theorem close_if_valid_kills (s : State) (fd : Int) :
    (close_if_valid s fd).kills = s.kills := by
  unfold close_if_valid
  split <;> simp

@[simp] theorem close_if_valid_status (s : State) (fd : Int) :
    (close_if_valid s fd).status = s.status := by
  unfold close_if_valid
  split <;> simp

@[simp] theorem close_if_valid_Jobs (s : State) (fd : Int) :
    (close_if_valid s fd).Jobs = s.Jobs := by
  unfold close_if_valid
  split <;> simp

/-- What a call of `exe_single_command` does in the parent when the stage has a
program name and `fork` succeeds. -/
theorem exe_single_command_parent (env : Env) (s : State) (command : List String)
    (path : String) (input_fd output_fd : Int) (stage : Stage) (program : String)
    (hstage : build_stage command = some stage)
    (hprogram : stage.command.head? = some program)
    (hfork : 0 < env.fork_result s.forks) :
    (exe_single_command env s command path input_fd output_fd).trace =
      s.trace ++ [Event.spawn_call command path input_fd output_fd,
        Event.fork (env.fork_result s.forks) stage.command stage.input_file stage.output_file,
        if stage.background then Event.background_message (env.fork_result s.forks)
        else Event.waitpid (env.fork_result s.forks),
        Event.kill (env.fork_result s.forks)
          (env.kill_result s.kills (env.fork_result s.forks))] ∧
    (exe_single_command env s command path input_fd output_fd).pipes = s.pipes ∧
    (exe_single_command env s command path input_fd output_fd).forks = s.forks + 1 ∧
    (exe_single_command env s command path input_fd output_fd).kills = s.kills + 1 ∧
    (exe_single_command env s command path input_fd output_fd).status = s.status := by
  have h1 : ¬ env.fork_result s.forks < 0 := by omega
  have h2 : ¬ env.fork_result s.forks = 0 := by omega
  simp only [exe_single_command, hstage, emit, h1, h2, if_false, parent_branch, hprogram]
  by_cases hb : stage.background = true <;>
    by_cases hk : env.kill_result s.kills (env.fork_result s.forks) = 0 <;>
    simp [hb, hk]

/-- The loop body when no early `return` is taken. -/
theorem pipeline_loop_continue (env : Env) (n : Nat) (command : List String)
    (rest : List (List String)) (i : Nat) (pipe_fd pipe_fd1 : Int × Int) (input_fd : Int)
    (s s1 : State) (name : String)
    (hcp : create_pipe env s i n pipe_fd = Except.ok (pipe_fd1, s1))
    (hhead : command.head? = some name)
    (hresolve : find_executable env name ≠ "")
    (hrun : (exe_single_command env s1 command (find_executable env name) input_fd
      (if (i : Int) = (n : Int) - 1 then -1 else pipe_fd1.2)).status = Status.running) :
    pipeline_loop env n (command :: rest) i pipe_fd input_fd s =
      pipeline_loop env n rest (i + 1) pipe_fd1 pipe_fd1.1
        (close_if_valid (close_if_valid
          (exe_single_command env s1 command (find_executable env name) input_fd
            (if (i : Int) = (n : Int) - 1 then -1 else pipe_fd1.2)) input_fd)
          (if (i : Int) = (n : Int) - 1 then -1 else pipe_fd1.2)) := by
  rw [pipeline_loop, hcp]
  simp only [hhead, hresolve, if_false]
  rw [if_neg (by simp [hrun])]

/-- The pipe step of a clean iteration. -/
theorem create_pipe_clean (env : Env) (r w : Nat → Int) (n i : Nat) (pipe_fd : Int × Int)
    (s : State) (hpipe : i + 1 ≠ n → env.pipe_result i = some (r i, w i))
    (hpipes : s.pipes = i) :
    ∃ pipe_fd1 s1, create_pipe env s i n pipe_fd = Except.ok (pipe_fd1, s1) ∧
      (i + 1 ≠ n → pipe_fd1 = (r i, w i) ∧ s1.pipes = i + 1) ∧
      s1.trace = s.trace ++ (if i + 1 = n then [] else [Event.pipe_ok (r i) (w i)]) ∧
      s1.forks = s.forks ∧ s1.kills = s.kills ∧ s1.status = s.status ∧ s1.Jobs = s.Jobs := by
  by_cases hlast : i + 1 = n
  · have hl : (i : Int) = (n : Int) - 1 := by omega
    exact ⟨pipe_fd, s, by simp [create_pipe, hl], fun h => absurd hlast h, by simp [hlast],
      rfl, rfl, rfl, rfl⟩
  · have hl : ¬ (i : Int) = (n : Int) - 1 := by omega
    have hpr : env.pipe_result s.pipes = some (r i, w i) := by
      rw [hpipes]
      exact hpipe hlast
    refine ⟨(r i, w i), emit { s with pipes := s.pipes + 1 } (Event.pipe_ok (r i) (w i)),
      by simp [create_pipe, hl, hpr], fun _ => ⟨rfl, by simp [hpipes]⟩, by simp [hlast],
      rfl, rfl, rfl, rfl⟩

/-- One clean iteration of the loop of `execute_pipeline`. -/
theorem pipeline_loop_clean_step (env : Env) (r w : Nat → Int) (n : Nat)
    (command : List String) (rest : List (List String)) (i : Nat) (pipe_fd : Int × Int)
    (s : State) (hclean : runs_clean env r w n (i, command))
    (hpipes : s.pipes = i) (hforks : s.forks = i) (hkills : s.kills = i)
    (hstatus : s.status = Status.running) :
    ∃ pipe_fd1 s1,
      pipeline_loop env n (command :: rest) i pipe_fd (carried_input r i) s =
        pipeline_loop env n rest (i + 1) pipe_fd1 pipe_fd1.1 s1 ∧
      (i + 1 ≠ n → pipe_fd1.1 = carried_input r (i + 1) ∧ s1.pipes = i + 1) ∧
      s1.trace = s.trace ++ stage_events env r w n (i, command) ∧
      s1.forks = i + 1 ∧ s1.kills = i + 1 ∧ s1.status = Status.running := by
  obtain ⟨⟨stage, program, hstage, hprogram⟩, hresolve, hpipe, hfork⟩ := hclean
  simp only at hstage hprogram hresolve hpipe hfork
  obtain ⟨name, tl, hcmd⟩ : ∃ name tl, command = name :: tl := by
    cases command with
    | nil => simp [build_stage] at hstage
    | cons a b => exact ⟨a, b, rfl⟩
  have hhead : command.head? = some name := by simp [hcmd]
  have hheadD : command.headD "" = name := by simp [hcmd]
  rw [hheadD] at hresolve
  obtain ⟨pipe_fd1, s1, hcp, hnext, ht1, hf1, hk1, hs1, _⟩ :=
    create_pipe_clean env r w n i pipe_fd s hpipe hpipes
  have hout : (if (i : Int) = (n : Int) - 1 then -1 else pipe_fd1.2) = stage_output w n i := by
    unfold stage_output
    by_cases hlast : i + 1 = n
    · have hl : (i : Int) = (n : Int) - 1 := by omega
      simp [hlast, hl]
    · have hl : ¬ (i : Int) = (n : Int) - 1 := by omega
      simp [hlast, hl, (hnext hlast).1]
  have hfork1 : 0 < env.fork_result s1.forks := by rw [hf1, hforks]; exact hfork
  obtain ⟨ht, hp, hf, hk, hs⟩ := exe_single_command_parent env s1 command
    (find_executable env name) (carried_input r i) (stage_output w n i) stage program
    hstage hprogram hfork1
  have hloop := pipeline_loop_continue env n command rest i pipe_fd pipe_fd1 (carried_input r i)
    s s1 name hcp hhead hresolve (by rw [hout, hs, hs1, hstatus])
  rw [hout] at hloop
  refine ⟨pipe_fd1, _, hloop, ?_, ?_, ?_, ?_, ?_⟩
  · intro hlast
    obtain ⟨hfd, hp1⟩ := hnext hlast
    constructor
    · simp [hfd, carried_input]
    · simp [hp, hp1]
  · rw [close_if_valid_trace, close_if_valid_trace, ht, ht1, hf1, hk1, hforks, hkills]
    simp only [stage_events, hstage, hheadD]
    simp
  · simp [hf, hf1, hforks]
  · simp [hk, hk1, hkills]
  · simp [hs, hs1, hstatus]

/-- A clean run over the stages `before`, followed by whatever the loop does on `rest`. -/
theorem pipeline_loop_clean_stages (env : Env) (r w : Nat → Int) (n : Nat)
    (rest : List (List String)) :
    ∀ (before : List (List String)) (i : Nat) (pipe_fd : Int × Int) (s : State),
      i + before.length + rest.length = n →
      s.pipes = i → s.forks = i → s.kills = i → s.status = Status.running →
      (∀ p ∈ before.enumFrom i, runs_clean env r w n p) →
      ∃ pipe_fd1 input1 s1,
        pipeline_loop env n (before ++ rest) i pipe_fd (carried_input r i) s =
          pipeline_loop env n rest (i + before.length) pipe_fd1 input1 s1 ∧
        (rest ≠ [] → input1 = carried_input r (i + before.length) ∧
          s1.pipes = i + before.length) ∧
        s1.trace = s.trace ++ (before.enumFrom i).flatMap (stage_events env r w n) ∧
        s1.forks = i + before.length ∧ s1.kills = i + before.length ∧
        s1.status = Status.running ∧ (before = [] → s1 = s) := by
  intro before
  induction before with
  | nil =>
    intro i pipe_fd s _ hp hf hk hs _
    exact ⟨pipe_fd, carried_input r i, s, rfl, fun _ => ⟨rfl, hp⟩, by simp, hf, hk, hs,
      fun _ => rfl⟩
  | cons c bs ih =>
    intro i pipe_fd s hlen hp hf hk hs hclean
    have hc : runs_clean env r w n (i, c) := hclean (i, c) (by simp [List.enumFrom])
    obtain ⟨pipe_fd1, s1, hloop, hnext, ht1, hf1, hk1, hs1⟩ :=
      pipeline_loop_clean_step env r w n c (bs ++ rest) i pipe_fd s hc hp hf hk hs
    by_cases hlast : i + 1 = n
    · have hbs : bs = [] := by
        apply List.length_eq_zero.mp
        simp at hlen
        omega
      have hrest : rest = [] := by
        apply List.length_eq_zero.mp
        simp at hlen
        omega
      subst hbs
      subst hrest
      refine ⟨pipe_fd1, pipe_fd1.1, s1, ?_, fun h => absurd rfl h, ?_, ?_, ?_, hs1, ?_⟩
      · rw [List.cons_append, hloop]
        simp [pipeline_loop]
      · simp [List.enumFrom, ht1]
      · simp [hf1]
      · simp [hk1]
      · intro h
        cases h
    · obtain ⟨hin, hp1⟩ := hnext hlast
      have hclean1 : ∀ p ∈ bs.enumFrom (i + 1), runs_clean env r w n p := by
        intro p hpm
        exact hclean p (by simp [List.enumFrom, hpm])
      obtain ⟨pipe_fd2, input2, s2, hloop2, hnext2, ht2, hf2, hk2, hs2, _⟩ :=
        ih (i + 1) pipe_fd1 s1 (by simp at hlen ⊢; omega) hp1 hf1 hk1 hs1 hclean1
      refine ⟨pipe_fd2, input2, s2, ?_, ?_, ?_, ?_, ?_, hs2, ?_⟩
      · rw [List.cons_append, hloop, hin, hloop2]
        simp [Nat.add_assoc, Nat.add_comm 1]
      · intro h
        obtain ⟨h1, h2⟩ := hnext2 h
        constructor
        · rw [h1]; simp [Nat.add_assoc, Nat.add_comm 1]
        · rw [h2]; simp [Nat.add_assoc, Nat.add_comm 1]
      · rw [ht2, ht1]
        simp [List.enumFrom]
      · rw [hf2]; simp [Nat.add_assoc, Nat.add_comm 1]
      · rw [hk2]; simp [Nat.add_assoc, Nat.add_comm 1]
      · intro h
        cases h

/-- The whole trace of a run of `execute_pipeline` in which nothing fails. -/
theorem execute_pipeline_clean_trace (env : Env) (r w : Nat → Int)
    (commands : List (List String)) (Jobs : Int → Option String)
    (hclean : ∀ p ∈ commands.enum, runs_clean env r w commands.length p) :
    (execute_pipeline env commands Jobs).trace =
      commands.enum.flatMap (stage_events env r w commands.length) ∧
    (execute_pipeline env commands Jobs).status = Status.running := by
  obtain ⟨pipe_fd1, input1, s1, hloop, _, ht, _, _, hs, _⟩ :=
    pipeline_loop_clean_stages env r w commands.length [] commands 0 env.uninit_pipe_fd
      (initial_state Jobs) (by simp) rfl rfl rfl rfl (by simpa [List.enum] using hclean)
  have hrun : execute_pipeline env commands Jobs = s1 := by
    unfold execute_pipeline
    have h0 : carried_input r 0 = -1 := by simp [carried_input]
    rw [h0, List.append_nil] at hloop
    rw [hloop]
    simp [pipeline_loop]
  rw [hrun]
  exact ⟨by simpa [List.enum, initial_state] using ht, hs⟩

/-- The hypotheses of a run without failures, stage by stage. -/
theorem runs_clean_of (env : Env) (r w : Nat → Int) (commands : List (List String))
    (hprogram : ∀ c ∈ commands, program_name c ≠ none)
    (hresolve : ∀ c ∈ commands, find_executable env (c.headD "") ≠ "")
    (hpipe : ∀ i, i + 1 < commands.length → env.pipe_result i = some (r i, w i))
    (hfork : ∀ i, i < commands.length → 0 < env.fork_result i) :
    ∀ p ∈ commands.enum, runs_clean env r w commands.length p := by
  intro p hp
  have hlt : p.1 < commands.length := by
    have := List.fst_lt_add_of_mem_enumFrom hp
    omega
  have hmem : p.2 ∈ commands := List.snd_mem_of_mem_enumFrom hp
  have hprog : ∃ stage program,
      build_stage p.2 = some stage ∧ stage.command.head? = some program := by
    have h := hprogram p.2 hmem
    unfold program_name at h
    cases hb : build_stage p.2 with
    | none => simp [hb] at h
    | some stage =>
      simp only [hb] at h
      cases hh : stage.command.head? with
      | none => exact absurd hh h
      | some program => exact ⟨stage, program, rfl, hh⟩
  exact ⟨hprog, hresolve p.2 hmem, fun h => hpipe p.1 (by omega), hfork p.1 hlt⟩

/-- The fields of a built stage in terms of the command vector. -/
theorem build_stage_fields (command : List String) (stage : Stage)
    (h : build_stage command = some stage) :
    stage.background = decide (command.getLast? = some "&") ∧
    stage.command =
      (redirection_scan (if command.getLast? = some "&" then command.dropLast else command)
        0 "" "").1 ∧
    stage.input_file =
      (redirection_scan (if command.getLast? = some "&" then command.dropLast else command)
        0 "" "").2.1 ∧
    stage.output_file =
      (redirection_scan (if command.getLast? = some "&" then command.dropLast else command)
        0 "" "").2.2 := by
  unfold build_stage at h
  cases hl : command.getLast? with
  | none => simp [hl] at h
  | some last =>
    simp only [hl, Option.some.injEq] at h
    subst h
    by_cases hb : last = "&" <;> simp [strip_background, hb]

/-- C1: in a run where every stage has a program name that resolves, every pipe
creation succeeds (the pipe of iteration `i` having read end `r i` and write end
`w i`) and every fork succeeds, `exe_single_command` is called exactly once per
stage, in stage order; stage 0 gets input descriptor `-1`, the last stage gets
output descriptor `-1`, every other stage `i` gets as output the write end
`w i` of the pipe created in its own iteration, and stage `i + 1` gets as input
the read end `r i` of that same pipe. -/
theorem execute_pipeline_chains_pipes (env : Env) (r w : Nat → Int)
    (commands : List (List String)) (Jobs : Int → Option String)
    (hprogram : ∀ c ∈ commands, program_name c ≠ none)
    (hresolve : ∀ c ∈ commands, find_executable env (c.headD "") ≠ "")
    (hpipe : ∀ i, i + 1 < commands.length → env.pipe_result i = some (r i, w i))
    (hfork : ∀ i, i < commands.length → 0 < env.fork_result i) :
    spawn_calls (execute_pipeline env commands Jobs).trace =
      commands.enum.map (fun p =>
        Event.spawn_call p.2 (find_executable env (p.2.headD ""))
          (if p.1 = 0 then -1 else r (p.1 - 1))
          (if p.1 + 1 = commands.length then -1 else w p.1)) ∧
    wiring (execute_pipeline env commands Jobs).trace =
      commands.enum.flatMap (fun p =>
        (if p.1 + 1 = commands.length then [] else [Event.pipe_ok (r p.1) (w p.1)]) ++
        [Event.spawn_call p.2 (find_executable env (p.2.headD ""))
          (if p.1 = 0 then -1 else r (p.1 - 1))
          (if p.1 + 1 = commands.length then -1 else w p.1)]) := by
  have hclean := runs_clean_of env r w commands hprogram hresolve hpipe hfork
  rw [(execute_pipeline_clean_trace env r w commands Jobs hclean).1]
  constructor
  · rw [spawn_calls, List.filter_flatMap, ← List.flatMap_singleton' (List.map _ _),
      List.flatMap_map]
    apply List.flatMap_congr
    intro p hp
    obtain ⟨⟨stage, program, hstage, -⟩, -⟩ := hclean p hp
    simp only [stage_events, hstage, carried_input, stage_output]
    split_ifs <;> simp [List.filter]
  · rw [wiring, List.filter_flatMap]
    apply List.flatMap_congr
    intro p hp
    obtain ⟨⟨stage, program, hstage, -⟩, -⟩ := hclean p hp
    simp only [stage_events, hstage, carried_input, stage_output]
    split_ifs <;> simp [List.filter]

theorem execute_pipeline_chains_pipes_witness :
    spawn_calls (execute_pipeline demo_env [["ls", "-l"], ["cat", "<", "in.txt"], ["wc", "&"]]
      (fun _ => none)).trace =
      [Event.spawn_call ["ls", "-l"] "/bin/ls" (-1) 4,
        Event.spawn_call ["cat", "<", "in.txt"] "/bin/cat" 3 6,
        Event.spawn_call ["wc", "&"] "/usr/bin/wc" 5 (-1)] :=
  (execute_pipeline_chains_pipes demo_env (fun i => 3 + 2 * (i : Int))
    (fun i => 4 + 2 * (i : Int)) [["ls", "-l"], ["cat", "<", "in.txt"], ["wc", "&"]]
    (fun _ => none)
    (by decide) (by decide) (fun _ _ => rfl) (fun i _ => by simp [demo_env]; omega)).1

/-! ## Theorems: the background marker -/

/-- C7 as stated fails: in `ls & | cat` the first stage is not the final one,
yet its trailing `&` is removed from its arguments (the child is forked with
`["ls"]`, not `["ls", "&"]`) and the stage is not waited for. -/
theorem marker_in_non_final_stage_is_special :
    Event.fork 100 ["ls"] "" "" ∈
      (execute_pipeline demo_env [["ls", "&"], ["cat"]] (fun _ => none)).trace ∧
    Event.fork 100 ["ls", "&"] "" "" ∉
      (execute_pipeline demo_env [["ls", "&"], ["cat"]] (fun _ => none)).trace ∧
    Event.waitpid 100 ∉
      (execute_pipeline demo_env [["ls", "&"], ["cat"]] (fun _ => none)).trace := by
  decide

/-- C7, amended: in a run without failures, every stage, final or not, is
treated alike.  When the last token of a stage is `&`, the stage is forked with
the redirection scan of its tokens without that last token and is not waited
for; when the last token is not `&`, the stage is forked with the redirection
scan of all its tokens (no `&` is removed by the marker handling) and a blocking
`waitpid` follows the fork. -/
theorem marker_is_handled_per_stage (env : Env) (r w : Nat → Int)
    (commands : List (List String)) (Jobs : Int → Option String)
    (hprogram : ∀ c ∈ commands, program_name c ≠ none)
    (hresolve : ∀ c ∈ commands, find_executable env (c.headD "") ≠ "")
    (hpipe : ∀ i, i + 1 < commands.length → env.pipe_result i = some (r i, w i))
    (hfork : ∀ i, i < commands.length → 0 < env.fork_result i) :
    forks_and_waits (execute_pipeline env commands Jobs).trace =
      commands.enum.flatMap (fun p =>
        if p.2.getLast? = some "&" then
          [Event.fork (env.fork_result p.1)
              (redirection_scan p.2.dropLast 0 "" "").1
              (redirection_scan p.2.dropLast 0 "" "").2.1
              (redirection_scan p.2.dropLast 0 "" "").2.2,
            Event.background_message (env.fork_result p.1)]
        else
          [Event.fork (env.fork_result p.1)
              (redirection_scan p.2 0 "" "").1
              (redirection_scan p.2 0 "" "").2.1
              (redirection_scan p.2 0 "" "").2.2,
            Event.waitpid (env.fork_result p.1)]) := by
  have hclean := runs_clean_of env r w commands hprogram hresolve hpipe hfork
  rw [(execute_pipeline_clean_trace env r w commands Jobs hclean).1]
  rw [forks_and_waits, List.filter_flatMap]
  apply List.flatMap_congr
  intro p hp
  obtain ⟨⟨stage, program, hstage, -⟩, -⟩ := hclean p hp
  obtain ⟨hb, hc, hi, ho⟩ := build_stage_fields p.2 stage hstage
  simp only [stage_events, hstage, hb, hc, hi, ho]
  by_cases hm : p.2.getLast? = some "&"
  · simp only [hm, decide_True, if_true]
    split_ifs <;> simp [List.filter]
  · simp only [hm, decide_False, if_false, Bool.false_eq_true]
    split_ifs <;> simp [List.filter]

theorem marker_is_handled_per_stage_witness :
    forks_and_waits (execute_pipeline demo_env [["sleep", "5", "&"], ["cat", "&", "x"]]
      (fun _ => none)).trace =
      [Event.fork 100 ["sleep", "5"] "" "", Event.background_message 100,
        Event.fork 101 ["cat", "&", "x"] "" "", Event.waitpid 101] :=
  marker_is_handled_per_stage demo_env (fun i => 3 + 2 * (i : Int))
    (fun i => 4 + 2 * (i : Int)) [["sleep", "5", "&"], ["cat", "&", "x"]] (fun _ => none)
    (by decide) (by decide) (fun _ _ => rfl) (fun i _ => by simp [demo_env]; omega)

/-- C9 as stated fails in both directions: in `ls | cat &` the final stage
carries the marker, yet `execute_pipeline` blocks in `waitpid` on the first
stage; and in `sleep 5 & | wc` the final stage carries no marker, yet the first
stage is not waited for. -/
theorem background_flag_is_not_pipeline_wide :
    waited_pids (execute_pipeline demo_env [["ls"], ["cat", "&"]] (fun _ => none)).trace
      = [100] ∧
    waited_pids (execute_pipeline demo_env [["sleep", "5", "&"], ["wc"]] (fun _ => none)).trace
      = [101] := by
  decide

/-- C9, amended: the background flag is per stage.  In a run without failures
the blocking waits of `execute_pipeline` are exactly on the processes of the
stages whose last token is not `&`, in spawn order; no stage whose last token is
`&` is waited for. -/
theorem waits_exactly_for_unmarked_stages (env : Env) (r w : Nat → Int)
    (commands : List (List String)) (Jobs : Int → Option String)
    (hprogram : ∀ c ∈ commands, program_name c ≠ none)
    (hresolve : ∀ c ∈ commands, find_executable env (c.headD "") ≠ "")
    (hpipe : ∀ i, i + 1 < commands.length → env.pipe_result i = some (r i, w i))
    (hfork : ∀ i, i < commands.length → 0 < env.fork_result i) :
    waited_pids (execute_pipeline env commands Jobs).trace =
      (commands.enum.filter (fun p => decide (p.2.getLast? ≠ some "&"))).map
        (fun p => env.fork_result p.1) := by
  have hclean := runs_clean_of env r w commands hprogram hresolve hpipe hfork
  rw [(execute_pipeline_clean_trace env r w commands Jobs hclean).1]
  rw [waited_pids, List.flatMap_assoc]
  generalize commands.enum = l at hclean
  induction l with
  | nil => simp
  | cons p l ih =>
    obtain ⟨⟨stage, program, hstage, -⟩, -⟩ := hclean p (List.mem_cons_self _ _)
    obtain ⟨hb, -⟩ := build_stage_fields p.2 stage hstage
    rw [List.flatMap_cons, ih (fun q hq => hclean q (List.mem_cons_of_mem _ hq))]
    simp only [stage_events, hstage, hb, List.filter_cons]
    by_cases hm : p.2.getLast? = some "&"
    · simp only [hm, decide_True, if_true, ne_eq, not_true_eq_false, decide_False,
        Bool.false_eq_true, if_false]
      split_ifs <;> simp
    · simp only [hm, decide_False, if_false, ne_eq, not_false_eq_true, decide_True, if_true,
        Bool.false_eq_true]
      split_ifs <;> simp

theorem waits_exactly_for_unmarked_stages_witness :
    waited_pids (execute_pipeline demo_env [["ls"], ["sleep", "5", "&"], ["wc"]]
      (fun _ => none)).trace = [100, 102] :=
  waits_exactly_for_unmarked_stages demo_env (fun i => 3 + 2 * (i : Int))
    (fun i => 4 + 2 * (i : Int)) [["ls"], ["sleep", "5", "&"], ["wc"]] (fun _ => none)
    (by decide) (by decide) (fun _ _ => rfl) (fun i _ => by simp [demo_env]; omega)

/-! ## Theorems: defects on the paths of an empty stage and of an early return -/

/-- C8 fails on the code: a stage that is empty after stripping is not rejected.
For the command `&` (and likewise `< f`) the stage built has no token left, yet
`exe_single_command` calls `fork`, handing the child an empty argument vector,
and the parent then evaluates `command[0]` on the empty vector.  The same
happens through `execute_pipeline` when a file named `&` is on `PATH`. -/
theorem empty_stage_is_forked :
    program_name ["&"] = none ∧ program_name ["<", "f"] = none ∧
    (exe_single_command demo_env (initial_state (fun _ => none)) ["&"] "/bin/true"
        (-1) (-1)).trace =
      [Event.spawn_call ["&"] "/bin/true" (-1) (-1), Event.fork 100 [] "" ""] ∧
    (exe_single_command demo_env (initial_state (fun _ => none)) ["&"] "/bin/true"
        (-1) (-1)).status = Status.undefined ∧
    (exe_single_command demo_env (initial_state (fun _ => none)) ["<", "f"] "/bin/true"
        (-1) (-1)).trace =
      [Event.spawn_call ["<", "f"] "/bin/true" (-1) (-1), Event.fork 100 [] "f" ""] ∧
    (execute_pipeline ampersand_env [["&"]] (fun _ => none)).trace =
      [Event.spawn_call ["&"] "/bin/&" (-1) (-1), Event.fork 100 [] "" ""] := by
  decide

/-- C10 fails on the code: in `ls | nosuch` the pipe `(3, 4)` is created, the
write end `4` is closed after the first stage, and the early `return` taken when
`nosuch` does not resolve leaves the read end `3` open: it is never closed. -/
theorem read_end_leaks_on_command_not_found :
    (execute_pipeline demo_env [["ls"], ["nosuch"]] (fun _ => none)).trace =
      [Event.pipe_ok 3 4, Event.spawn_call ["ls"] "/bin/ls" (-1) 4,
        Event.fork 100 ["ls"] "" "", Event.waitpid 100, Event.kill 100 0, Event.close 4,
        Event.not_found "nosuch"] ∧
    Event.close 3 ∉ (execute_pipeline demo_env [["ls"], ["nosuch"]] (fun _ => none)).trace := by
  decide

/-! ## Theorems: a stage whose command name does not resolve -/

theorem called_commands_append (a b : List Event) :
    called_commands (a ++ b) = called_commands a ++ called_commands b := by
  simp [called_commands]

theorem forks_of_append (a b : List Event) :
    forks_of (a ++ b) = forks_of a ++ forks_of b := by
  simp [forks_of]

/-- The child branch makes no call of `exe_single_command` and no `fork`. -/
theorem child_branch_spawns_nothing (env : Env) (s : State) (command : List String)
    (path input_file output_file : String) (input_fd output_fd : Int) :
    called_commands (child_branch env s command path input_file output_file
      input_fd output_fd).trace = called_commands s.trace ∧
    forks_of (child_branch env s command path input_file output_file
      input_fd output_fd).trace = forks_of s.trace ∧
    (child_branch env s command path input_file output_file
      input_fd output_fd).status = Status.gone := by
  simp only [child_branch, handle_input_redirection, handle_output_redirection, redirect_onto]
  split_ifs <;> simp [called_commands, forks_of, List.filter]

/-- What any call of `exe_single_command` adds, whatever the environment answers. -/
theorem exe_single_command_spawns_once (env : Env) (s : State) (command : List String)
    (path : String) (input_fd output_fd : Int) :
    called_commands (exe_single_command env s command path input_fd output_fd).trace =
      called_commands s.trace ++ [command] ∧
    (forks_of (exe_single_command env s command path input_fd output_fd).trace).length ≤
      (forks_of s.trace).length + 1 ∧
    (forks_of s.trace).length ≤
      (forks_of (exe_single_command env s command path input_fd output_fd).trace).length ∧
    (program_name command ≠ none → s.status ≠ Status.undefined →
      (exe_single_command env s command path input_fd output_fd).status ≠ Status.undefined) := by
  unfold exe_single_command program_name
  cases hb : build_stage command with
  | none => simp [called_commands, forks_of, List.filter]
  | some stage =>
    simp only [emit_forks]
    by_cases h1 : env.fork_result s.forks < 0
    · simp [h1, called_commands, forks_of, List.filter]
    · by_cases h2 : env.fork_result s.forks = 0
      · simp only [if_neg h1, if_pos h2]
        rw [(child_branch_spawns_nothing _ _ _ _ _ _ _ _).1,
          (child_branch_spawns_nothing _ _ _ _ _ _ _ _).2.1,
          (child_branch_spawns_nothing _ _ _ _ _ _ _ _).2.2]
        simp [called_commands, forks_of, List.filter]
      · simp only [h1, h2, if_false, parent_branch]
        cases hh : stage.command.head? with
        | none => simp [called_commands, forks_of, List.filter]
        | some argv0 =>
          simp only
          split_ifs <;> simp [called_commands, forks_of, List.filter]

/-- Creating the pipe, or failing to, spawns nothing. -/
theorem create_pipe_spawns_nothing (env : Env) (s : State) (i n : Nat) (pipe_fd : Int × Int) :
    (∀ s1, create_pipe env s i n pipe_fd = Except.error s1 →
      called_commands s1.trace = called_commands s.trace ∧
      forks_of s1.trace = forks_of s.trace ∧ s1.status = s.status ∧ s1.Jobs = s.Jobs) ∧
    (∀ pipe_fd1 s1, create_pipe env s i n pipe_fd = Except.ok (pipe_fd1, s1) →
      called_commands s1.trace = called_commands s.trace ∧
      forks_of s1.trace = forks_of s.trace ∧ s1.status = s.status ∧ s1.Jobs = s.Jobs) := by
  unfold create_pipe
  by_cases hl : (i : Int) ≠ (n : Int) - 1
  · rw [if_pos hl]
    cases hp : env.pipe_result s.pipes with
    | none =>
      constructor
      · intro s1 h
        simp only [Except.error.injEq] at h
        subst h
        simp [called_commands, forks_of, List.filter]
      · intro _ _ h
        simp at h
    | some fds =>
      constructor
      · intro _ h
        simp at h
      · intro pipe_fd1 s1 h
        simp only [Except.ok.injEq, Prod.mk.injEq] at h
        obtain ⟨_, h⟩ := h
        subst h
        simp [called_commands, forks_of, List.filter]
  · rw [if_neg hl]
    constructor
    · intro _ h
      simp at h
    · intro pipe_fd1 s1 h
      simp only [Except.ok.injEq, Prod.mk.injEq] at h
      obtain ⟨_, h⟩ := h
      subst h
      exact ⟨rfl, rfl, rfl, rfl⟩

theorem close_if_valid_spawns_nothing (s : State) (fd : Int) :
    called_commands (close_if_valid s fd).trace = called_commands s.trace ∧
    forks_of (close_if_valid s fd).trace = forks_of s.trace := by
  rw [close_if_valid_trace]
  split_ifs <;> simp [called_commands, forks_of, List.filter]

/-- Whatever the environment answers, the loop never gets past a stage whose
command name does not resolve. -/
theorem pipeline_loop_stops_at_unresolved (env : Env) (n : Nat) (c : List String)
    (after : List (List String)) (name : String)
    (hhead : c.head? = some name) (hunresolved : find_executable env name = "") :
    ∀ (before : List (List String)) (i : Nat) (pipe_fd : Int × Int) (input_fd : Int) (s : State),
      (∀ b ∈ before, program_name b ≠ none) → s.status ≠ Status.undefined →
      ∃ m, m ≤ before.length ∧
        called_commands (pipeline_loop env n (before ++ c :: after) i pipe_fd input_fd s).trace =
          called_commands s.trace ++ before.take m ∧
        (forks_of (pipeline_loop env n (before ++ c :: after) i pipe_fd input_fd s).trace).length
          ≤ (forks_of s.trace).length + m ∧
        (forks_of s.trace).length ≤
          (forks_of (pipeline_loop env n (before ++ c :: after) i pipe_fd input_fd s).trace).length ∧
        (pipeline_loop env n (before ++ c :: after) i pipe_fd input_fd s).status ≠
          Status.undefined := by
  intro before
  induction before with
  | nil =>
    intro i pipe_fd input_fd s _ hs
    refine ⟨0, Nat.le_refl _, ?_⟩
    obtain ⟨herr, hok⟩ := create_pipe_spawns_nothing env s i n pipe_fd
    rw [List.nil_append, pipeline_loop]
    cases hcp : create_pipe env s i n pipe_fd with
    | error s1 =>
      obtain ⟨h1, h2, h3, _⟩ := herr s1 hcp
      simp [h1, h2, h3, hs]
    | ok res =>
      obtain ⟨pipe_fd1, s1⟩ := res
      obtain ⟨h1, h2, h3, _⟩ := hok pipe_fd1 s1 hcp
      have e1 : called_commands [Event.not_found name] = [] := rfl
      have e2 : forks_of [Event.not_found name] = [] := rfl
      simp [hhead, hunresolved, called_commands_append, forks_of_append, h1, h2, h3, hs, e1, e2]
  | cons b bs ih =>
    intro i pipe_fd input_fd s hprog hs
    obtain ⟨herr, hok⟩ := create_pipe_spawns_nothing env s i n pipe_fd
    rw [List.cons_append, pipeline_loop]
    cases hcp : create_pipe env s i n pipe_fd with
    | error s1 =>
      obtain ⟨h1, h2, h3, _⟩ := herr s1 hcp
      exact ⟨0, Nat.zero_le _, by simp [h1], by simp [h2], by simp [h2], by simp [h3, hs]⟩
    | ok res =>
      obtain ⟨pipe_fd1, s1⟩ := res
      obtain ⟨h1, h2, h3, _⟩ := hok pipe_fd1 s1 hcp
      have hb := hprog b (List.mem_cons_self _ _)
      obtain ⟨bname, btl, hbeq⟩ : ∃ bname btl, b = bname :: btl := by
        cases b with
        | nil => simp [program_name, build_stage] at hb
        | cons x y => exact ⟨x, y, rfl⟩
      have hbhead : b.head? = some bname := by simp [hbeq]
      simp only [hbhead]
      by_cases hres : find_executable env bname = ""
      · refine ⟨0, Nat.zero_le _, ?_⟩
        have e1 : called_commands [Event.not_found bname] = [] := rfl
        have e2 : forks_of [Event.not_found bname] = [] := rfl
        simp [hres, called_commands_append, forks_of_append, h1, h2, h3, hs, e1, e2]
      · simp only [hres, if_false]
        obtain ⟨hc2, hf2, hg2, hs2⟩ := exe_single_command_spawns_once env s1 b
          (find_executable env bname) input_fd
          (if (i : Int) = (n : Int) - 1 then -1 else pipe_fd1.2)
        have hs2b := hs2 hb (by rw [h3]; exact hs)
        by_cases hrun : (exe_single_command env s1 b (find_executable env bname) input_fd
            (if (i : Int) = (n : Int) - 1 then -1 else pipe_fd1.2)).status = Status.running
        · rw [if_neg (by simp [hrun])]
          obtain ⟨m, hm, hcm, hfm, hgm, hsm⟩ := ih (i + 1) pipe_fd1 pipe_fd1.1
            (close_if_valid (close_if_valid (exe_single_command env s1 b
              (find_executable env bname) input_fd
              (if (i : Int) = (n : Int) - 1 then -1 else pipe_fd1.2)) input_fd)
              (if (i : Int) = (n : Int) - 1 then -1 else pipe_fd1.2))
            (fun x hx => hprog x (List.mem_cons_of_mem _ hx))
            (by simp [hrun])
          rw [(close_if_valid_spawns_nothing _ _).2,
            (close_if_valid_spawns_nothing _ _).2] at hfm hgm
          rw [h2] at hf2 hg2
          refine ⟨m + 1, by simp; omega, ?_, by omega, by omega, hsm⟩
          rw [hcm, (close_if_valid_spawns_nothing _ _).1,
            (close_if_valid_spawns_nothing _ _).1, hc2, h1]
          simp
        · rw [if_pos (by simpa using hrun)]
          rw [h2] at hf2 hg2
          refine ⟨1, by simp, ?_, hf2, hg2, hs2b⟩
          rw [hc2, h1]
          simp

theorem stage_events_called (env : Env) (r w : Nat → Int) (n : Nat)
    (l : List (Nat × List String)) (hclean : ∀ p ∈ l, runs_clean env r w n p) :
    called_commands (l.flatMap (stage_events env r w n)) = l.map Prod.snd ∧
    (forks_of (l.flatMap (stage_events env r w n))).length = l.length := by
  induction l with
  | nil => simp [called_commands, forks_of]
  | cons p l ih =>
    obtain ⟨⟨stage, program, hstage, -⟩, -⟩ := hclean p (List.mem_cons_self _ _)
    obtain ⟨ih1, ih2⟩ := ih (fun q hq => hclean q (List.mem_cons_of_mem _ hq))
    rw [List.flatMap_cons, called_commands_append, forks_of_append, ih1, List.length_append, ih2]
    simp only [stage_events, hstage]
    constructor
    · split_ifs <;> simp [called_commands]
    · split_ifs <;> simp [forks_of, List.filter] <;> omega

/-- C4 as stated fails: in `ls | cat | nosuch` stage 2 is the first stage whose
name does not resolve, but when the second `pipe` call fails the run returns in
iteration 1 and only stage 0 was spawned, not the two earlier stages. -/
theorem earlier_pipe_failure_spawns_fewer :
    find_executable one_pipe_env "ls" ≠ "" ∧ find_executable one_pipe_env "cat" ≠ "" ∧
    find_executable one_pipe_env "nosuch" = "" ∧
    called_commands (execute_pipeline one_pipe_env [["ls"], ["cat"], ["nosuch"]]
      (fun _ => none)).trace = [["ls"]] := by
  decide

/-- C4, amended: let `c` be the first stage whose command name does not resolve,
and `before` the stages in front of it.  Whatever pipes and forks do, the
spawner is called only for an initial segment of `before`, in order, and at
most one process per such stage is forked: nothing is spawned for `c` or for a
later stage.  When every pipe creation and every fork in front of `c` succeeds,
exactly the stages of `before` are spawned.  When `before` is empty, nothing is
spawned and the job registry is unchanged. -/
theorem stops_at_first_unresolved_stage (env : Env) (before : List (List String))
    (c : List String) (after : List (List String)) (name : String)
    (Jobs : Int → Option String)
    (hprogram : ∀ b ∈ before, program_name b ≠ none)
    (hresolved : ∀ b ∈ before, find_executable env (b.headD "") ≠ "")
    (hhead : c.head? = some name) (hunresolved : find_executable env name = "") :
    (∃ m, m ≤ before.length ∧
      called_commands (execute_pipeline env (before ++ c :: after) Jobs).trace =
        before.take m) ∧
    (forks_of (execute_pipeline env (before ++ c :: after) Jobs).trace).length
      ≤ before.length ∧
    (execute_pipeline env (before ++ c :: after) Jobs).status ≠ Status.undefined ∧
    (∀ r w : Nat → Int,
      (∀ i, i < before.length → env.pipe_result i = some (r i, w i)) →
      (∀ i, i < before.length → 0 < env.fork_result i) →
      called_commands (execute_pipeline env (before ++ c :: after) Jobs).trace = before ∧
      (forks_of (execute_pipeline env (before ++ c :: after) Jobs).trace).length
        = before.length) ∧
    (before = [] →
      called_commands (execute_pipeline env (before ++ c :: after) Jobs).trace = [] ∧
      forks_of (execute_pipeline env (before ++ c :: after) Jobs).trace = [] ∧
      (execute_pipeline env (before ++ c :: after) Jobs).Jobs = Jobs) := by
  obtain ⟨m, hm, hcm, hfm, -, hsm⟩ := pipeline_loop_stops_at_unresolved env
    (before ++ c :: after).length c after name hhead hunresolved before 0 env.uninit_pipe_fd (-1)
    (initial_state Jobs) hprogram (by simp [initial_state])
  have hc0 : called_commands (initial_state Jobs).trace = [] := rfl
  have hf0 : forks_of (initial_state Jobs).trace = [] := rfl
  rw [hc0, List.nil_append] at hcm
  rw [hf0] at hfm
  refine ⟨⟨m, hm, hcm⟩, ?_, hsm, ?_, ?_⟩
  · unfold execute_pipeline
    simp only [List.length_nil, Nat.zero_add] at hfm
    omega
  · intro r w hpipe hfork
    have hclean : ∀ p ∈ before.enumFrom 0,
        runs_clean env r w (before ++ c :: after).length p := by
      intro p hp
      have hlt : p.1 < before.length := by
        have := List.fst_lt_add_of_mem_enumFrom hp
        omega
      have hmem : p.2 ∈ before := List.snd_mem_of_mem_enumFrom hp
      have hprog : ∃ stage program,
          build_stage p.2 = some stage ∧ stage.command.head? = some program := by
        have h := hprogram p.2 hmem
        unfold program_name at h
        cases hb : build_stage p.2 with
        | none => simp [hb] at h
        | some stage =>
          simp only [hb] at h
          cases hh : stage.command.head? with
          | none => exact absurd hh h
          | some program => exact ⟨stage, program, rfl, hh⟩
      exact ⟨hprog, hresolved p.2 hmem, fun _ => hpipe p.1 hlt, hfork p.1 hlt⟩
    obtain ⟨pipe_fd1, input1, s1, hloop, -, ht, -, -, hs, -⟩ :=
      pipeline_loop_clean_stages env r w (before ++ c :: after).length (c :: after) before 0
        env.uninit_pipe_fd (initial_state Jobs) (by simp) rfl rfl rfl rfl hclean
    obtain ⟨m2, hm2, hcm2, hfm2, hgm2, -⟩ := pipeline_loop_stops_at_unresolved env
      (before ++ c :: after).length c after name hhead hunresolved [] (0 + before.length)
      pipe_fd1 input1 s1 (by simp) (by simp [hs])
    have hrun : execute_pipeline env (before ++ c :: after) Jobs =
        pipeline_loop env (before ++ c :: after).length ([] ++ c :: after) (0 + before.length)
          pipe_fd1 input1 s1 := by
      unfold execute_pipeline
      have h0 : carried_input r 0 = -1 := by simp [carried_input]
      rw [h0] at hloop
      rw [hloop, List.nil_append]
    obtain ⟨hcall, hforks⟩ := stage_events_called env r w (before ++ c :: after).length
      (before.enumFrom 0) hclean
    have hm0 : m2 = 0 := by simpa using hm2
    have hts : s1.trace = (before.enumFrom 0).flatMap
        (stage_events env r w (before ++ c :: after).length) := by
      simpa [initial_state] using ht
    rw [hrun, hcm2, hm0]
    rw [hm0] at hfm2
    rw [hts, hforks, List.enumFrom_length] at hfm2 hgm2
    rw [hts, hcall]
    constructor
    · simp [List.enumFrom_map_snd]
    · omega
  · intro hb
    subst hb
    refine ⟨by simpa using hcm, ?_, ?_⟩
    · apply List.length_eq_zero.mp
      simp only [List.length_nil, Nat.zero_add] at hfm hm
      unfold execute_pipeline
      omega
    · obtain ⟨herr, hok⟩ := create_pipe_spawns_nothing env (initial_state Jobs) 0
        ([] ++ c :: after).length env.uninit_pipe_fd
      unfold execute_pipeline
      rw [List.nil_append, pipeline_loop]
      cases hcp : create_pipe env (initial_state Jobs) 0 (c :: after).length
          env.uninit_pipe_fd with
      | error s1 =>
        obtain ⟨-, -, -, hj⟩ := herr s1 hcp
        simpa [initial_state] using hj
      | ok res =>
        obtain ⟨pipe_fd1, s1⟩ := res
        obtain ⟨-, -, -, hj⟩ := hok pipe_fd1 s1 hcp
        simp only [hhead, hunresolved, if_true, emit_Jobs]
        simpa [initial_state] using hj

theorem stops_at_first_unresolved_stage_witness :
    called_commands (execute_pipeline demo_env ([["ls"], ["cat"]] ++ ["nosuch"] :: [["wc"]])
      (fun _ => none)).trace = [["ls"], ["cat"]] :=
  ((stops_at_first_unresolved_stage demo_env [["ls"], ["cat"]] ["nosuch"] [["wc"]] "nosuch"
    (fun _ => none) (by decide) (by decide) (by decide) (by decide)).2.2.2.1
    (fun i => 3 + 2 * (i : Int)) (fun i => 4 + 2 * (i : Int))
    (fun _ _ => rfl) (fun i _ => by simp [demo_env]; omega)).1

end Shell
